import Mathlib

/-!
Verification of the typing-speed-test game (`src/main.js`).

The game logic of `main.js` is shallowly embedded below: the module-level
mutable variables and the DOM nodes the code reads back (`theWord`,
`input.value`, `timeLeftSpan`, the score spans, ...) become fields of an
explicit `GameState`; every event handler becomes a pure function on
`GameState`; the browser's `setInterval`/`clearInterval` timers become a
list of live timer ids; `localStorage` plus `JSON` become an explicit
stored value and an executable JSON parser.  Randomness
(`Math.floor(Math.random() * currentWords.length)`) is passed in as the
already-floored index.
-/

namespace TypingGame

/-! ## A model of the ECMAScript `JSON.parse` builtin

`main.js` line 415 calls the platform builtin `JSON.parse`, which raises a
`SyntaxError` exception on input that is not valid JSON.  The builtin is
not part of the repository, so it is modelled here as an executable
recursive-descent parser returning `Except`: `.error "SyntaxError"` models
the thrown exception.  Simplifications of the model (none of which any
theorem below depends on): number lexing accepts leading zeros, string
lexing accepts raw control characters, and `\uXXXX` escapes are decoded
with `Char.ofNat` (no surrogate-pair combination). -/

inductive Json where
  | jnull : Json
  | jbool : Bool → Json
  | jnum : String → Json
  | jstr : String → Json
  | jarr : List Json → Json
  | jobj : List (String × Json) → Json

/-- JSON whitespace skipping. -/
def skipWs : List Char → List Char
  | c :: cs => if c = ' ' ∨ c = '\t' ∨ c = '\n' ∨ c = '\r' then skipWs cs else c :: cs
  | [] => []

/-- Fractional part of a JSON number literal. -/
def lexFrac : List Char → Option (List Char × List Char)
  | '.' :: rest =>
    let (ds, r) := rest.span Char.isDigit
    if ds.isEmpty then none else some ('.' :: ds, r)
  | cs => some ([], cs)

/-- Exponent part of a JSON number literal. -/
def lexExp : List Char → Option (List Char × List Char)
  | c :: rest =>
    if c = 'e' ∨ c = 'E' then
      match rest with
      | sgn :: rest2 =>
        if sgn = '+' ∨ sgn = '-' then
          let (ds, r) := rest2.span Char.isDigit
          if ds.isEmpty then none else some (c :: sgn :: ds, r)
        else
          let (ds, r) := rest.span Char.isDigit
          if ds.isEmpty then none else some (c :: ds, r)
      | [] => none
    else some ([], c :: rest)
  | [] => some ([], [])

/-- Lexes a complete JSON number literal, returning its characters. -/
def lexNumber (cs : List Char) : Option (List Char × List Char) :=
  let (negPart, cs1) :=
    match cs with
    | '-' :: rest => (['-'], rest)
    | _ => ([], cs)
  let (intPart, cs2) := cs1.span Char.isDigit
  if intPart.isEmpty then none
  else
    match lexFrac cs2 with
    | none => none
    | some (fracPart, cs3) =>
      match lexExp cs3 with
      | none => none
      | some (expPart, cs4) => some (negPart ++ intPart ++ fracPart ++ expPart, cs4)

/-- Single-character JSON string escapes. -/
def escapeChar (c : Char) : Option Char :=
  if c = '"' then some '"'
  else if c = '\\' then some '\\'
  else if c = '/' then some '/'
  else if c = 'b' then some '\x08'
  else if c = 'f' then some '\x0c'
  else if c = 'n' then some '\n'
  else if c = 'r' then some '\r'
  else if c = 't' then some '\t'
  else none

/-- Value of a hexadecimal digit. -/
def hexVal (c : Char) : Option Nat :=
  if c.isDigit then some (c.toNat - 48)
  else if 'a' ≤ c ∧ c ≤ 'f' then some (c.toNat - 87)
  else if 'A' ≤ c ∧ c ≤ 'F' then some (c.toNat - 55)
  else none

/-- Lexes the body of a JSON string literal (the opening quote already
consumed), up to and including the closing quote. -/
def lexStringChars : List Char → Option (List Char × List Char)
  | [] => none
  | '"' :: rest => some ([], rest)
  | '\\' :: 'u' :: h1 :: h2 :: h3 :: h4 :: rest =>
    (match hexVal h1, hexVal h2, hexVal h3, hexVal h4 with
     | some a, some b, some c, some d =>
       match lexStringChars rest with
       | some (tail, r) => some (Char.ofNat (((a * 16 + b) * 16 + c) * 16 + d) :: tail, r)
       | none => none
     | _, _, _, _ => none)
  | '\\' :: e :: rest =>
    (match escapeChar e with
     | some c =>
       match lexStringChars rest with
       | some (tail, r) => some (c :: tail, r)
       | none => none
     | none => none)
  | c :: rest =>
    (match lexStringChars rest with
     | some (tail, r) => some (c :: tail, r)
     | none => none)

mutual

/-- Parses one JSON value.  `fuel` bounds the recursion; since every
recursive call consumes at least one input character, `input length + 1`
fuel always suffices. -/
def parseValue : Nat → List Char → Option (Json × List Char)
  | 0, _ => none
  | fuel + 1, cs =>
    match skipWs cs with
    | '{' :: rest =>
      (match skipWs rest with
       | '}' :: r2 => some (.jobj [], r2)
       | _ =>
         match parseMembers fuel rest with
         | some (ms, r) => some (.jobj ms, r)
         | none => none)
    | '[' :: rest =>
      (match skipWs rest with
       | ']' :: r2 => some (.jarr [], r2)
       | _ =>
         match parseElems fuel rest with
         | some (vs, r) => some (.jarr vs, r)
         | none => none)
    | '"' :: rest =>
      (match lexStringChars rest with
       | some (chars, r) => some (.jstr ⟨chars⟩, r)
       | none => none)
    | 't' :: 'r' :: 'u' :: 'e' :: rest => some (.jbool true, rest)
    | 'f' :: 'a' :: 'l' :: 's' :: 'e' :: rest => some (.jbool false, rest)
    | 'n' :: 'u' :: 'l' :: 'l' :: rest => some (.jnull, rest)
    | rest =>
      match lexNumber rest with
      | some (lexeme, r) => some (.jnum ⟨lexeme⟩, r)
      | none => none

/-- Parses the comma-separated elements of a non-empty JSON array, up to
and including the closing bracket. -/
def parseElems : Nat → List Char → Option (List Json × List Char)
  | 0, _ => none
  | fuel + 1, cs =>
    match parseValue fuel cs with
    | some (v, r) =>
      (match skipWs r with
       | ',' :: r2 =>
         (match parseElems fuel r2 with
          | some (vs, r3) => some (v :: vs, r3)
          | none => none)
       | ']' :: r2 => some ([v], r2)
       | _ => none)
    | none => none

/-- Parses the members of a non-empty JSON object, up to and including
the closing brace. -/
def parseMembers : Nat → List Char → Option (List (String × Json) × List Char)
  | 0, _ => none
  | fuel + 1, cs =>
    match skipWs cs with
    | '"' :: rest =>
      (match lexStringChars rest with
       | some (key, r1) =>
         (match skipWs r1 with
          | ':' :: r2 =>
            (match parseValue fuel r2 with
             | some (v, r3) =>
               (match skipWs r3 with
                | ',' :: r4 =>
                  (match parseMembers fuel r4 with
                   | some (ms, r5) => some ((⟨key⟩, v) :: ms, r5)
                   | none => none)
                | '}' :: r4 => some ([(⟨key⟩, v)], r4)
                | _ => none)
             | none => none)
          | _ => none)
       | none => none)
    | _ => none

end

/-- Model of `JSON.parse`: parses the whole input string, raising
(`Except.error`) a `SyntaxError` when the input is not valid JSON. -/
def jsonParse (s : String) : Except String Json :=
  match parseValue (s.length + 1) s.data with
  | some (v, rest) => if (skipWs rest).isEmpty then .ok v else .error "SyntaxError"
  | none => .error "SyntaxError"

/-- Embeds `getScoreHistory` (`main.js` lines 413-416):
`localStorage.getItem` yields `null` (here `none`) or the stored string.
`stored ? JSON.parse(stored) : []` tests JS truthiness, so the empty
string also takes the `[]` branch; any other stored string goes through
`JSON.parse`, whose `SyntaxError` propagates out of `getScoreHistory`. -/
def getScoreHistory (stored : Option String) : Except String Json :=
  match stored with
  | none => .ok (.jarr [])
  | some s => if s = "" then .ok (.jarr []) else jsonParse s

/-! ## Word bank and static configuration (`main.js` lines 1-62) -/

/-- Embeds `wordsByLevel` (lines 8-38).  The JS object lookup yields `undefined`
for a key other than the three level names; such a lookup is never
executed with a valid level name, and is modelled by `[]` (a spread of
`undefined` would throw, and reachable states never hit this branch). -/
def wordsByLevel (levelName : String) : List String :=
  if levelName = "Easy" then
    ["Hello", "Code", "Town", "Test", "Work", "Play",
     "Run", "Jump", "Fast", "Slow", "Good", "Nice",
     "Cool", "Game", "Time", "Word", "Type", "Keys",
     "News", "Data", "File", "Save", "Open", "Exit",
     "Help", "Menu", "Start", "Stop", "Find", "Edit"]
  else if levelName = "Normal" then
    ["Programming", "Javascript", "Country", "Testing",
     "Youtube", "Linkedin", "Twitter", "Github",
     "Leetcode", "Internet", "Python", "Coding",
     "Funny", "Working", "Task", "Runner",
     "Roles", "Playing", "Document", "Function",
     "Variable", "Console", "Browser", "Website",
     "Database", "Network", "Server", "Client",
     "Framework", "Library", "Package", "Module"]
  else if levelName = "Hard" then
    ["Destructuring", "Paradigm", "Documentation",
     "Dependencies", "Asynchronous", "Synchronization",
     "Encapsulation", "Polymorphism", "Inheritance",
     "Abstraction", "Algorithm", "Optimization",
     "Authentication", "Authorization", "Implementation",
     "Configuration", "Initialization", "Serialization",
     "Deserialization", "Refactoring", "Architecture",
     "Infrastructure", "Methodology", "Cryptocurrency",
     "Decentralization", "Functionality", "Compatibility",
     "Accessibility", "Responsiveness", "Performance"]
  else []

/-- Embeds `lvls` (lines 44-48): per-word time budget in seconds.  An unknown
key yields `undefined` in JS; modelled by `0`, never reached with a
valid level name. -/
def lvls (levelName : String) : Nat :=
  if levelName = "Easy" then 5
  else if levelName = "Normal" then 4
  else if levelName = "Hard" then 5
  else 0

/-- Embeds `levelProgression` (line 57). -/
def levelProgression : List String := ["Easy", "Normal", "Hard"]

/-! ## Models of the JS string builtins used by the handlers -/

/-- Models `String.prototype.toLowerCase`, modelled character-wise with Lean's
ASCII `Char.toLower` (all words in the word bank are ASCII). -/
def jsToLowerCase (s : String) : String := ⟨s.data.map Char.toLower⟩

/-- Models `String.prototype.startsWith`. -/
def jsStartsWith (s p : String) : Bool := p.data.isPrefixOf s.data

/-- Models `String.prototype.slice(0, -1)`: drops the last character. -/
def jsSliceDropLast (s : String) : String := ⟨s.data.dropLast⟩

/-- Models `Array.prototype.indexOf`, which yields `-1` when absent. -/
def jsIndexOf (xs : List String) (x : String) : Int :=
  if x ∈ xs then (xs.indexOf x : Int) else -1

/-! ## Game state

One record holding the module-level variables of `main.js`
(`defaultLevelName`, `defaultLevelSeconds`, `currentWords`,
`currentTimer`, `isFirstWord`) together with the DOM and platform state
the handlers read or write. -/

/-- One record appended to `localStorage` by `saveScore` (lines 399-411).
The wall-clock `date` field is outside the model. -/
structure ScoreEntry where
  score : Nat
  total : Nat
  level : String
  status : String
deriving DecidableEq, Repr

structure GameState where
  /-- module variable `defaultLevelName` -/
  defaultLevelName : String
  /-- module variable `defaultLevelSeconds` -/
  defaultLevelSeconds : Nat
  /-- module variable `currentWords` (the remaining pool) -/
  currentWords : List String
  /-- module variable `isFirstWord` -/
  isFirstWord : Bool
  /-- Mirrors `elements.theWord.innerHTML` -/
  theWord : String
  /-- children of `elements.upcomingWords` -/
  upcomingWords : List String
  /-- Mirrors `elements.input.value` -/
  inputValue : String
  /-- Mirrors `elements.timeLeftSpan.innerHTML`, numerically (`innerHTML--`
  coerces through JS numbers, so it can in principle go negative) -/
  timeLeft : Int
  /-- Mirrors `elements.scoreGot.innerHTML`, numerically -/
  scoreGot : Nat
  /-- Mirrors `elements.scoreTotal.innerHTML`, numerically -/
  scoreTotal : Nat
  /-- whether `elements.input` carries the `error` class -/
  inputError : Bool
  /-- whether the start button is still in the document -/
  startPresent : Bool
  /-- ids of `setInterval` timers that have not been cleared -/
  liveTimers : List Nat
  /-- module variable `currentTimer` (the last handle returned by
  `setInterval`; `null` before the first timer starts) -/
  currentTimer : Option Nat
  /-- id generator for `setInterval` handles -/
  nextTimerId : Nat
  /-- pending `setTimeout` callbacks queued by `advanceToNextLevel`,
  each carrying its captured `nextLevel` -/
  pendingAdvances : List String
  /-- spans appended to `elements.finishMessage`, as (className, text) -/
  finishMessages : List (String × String)
  /-- parsed contents of `localStorage` under `typingGameScores` -/
  savedScores : List ScoreEntry
  /-- whether `elements.upcomingWords.remove()` has run -/
  upcomingRemoved : Bool
  /-- instrumentation: set when `getRandomWord` reads an out-of-bounds
  index, i.e. when the selected word would be `undefined` in JS -/
  undefinedWord : Bool
deriving DecidableEq, Repr

/-! ## Handlers (`main.js` lines 89-386), one pure function each -/

/-- Embeds `updateUIForLevel` (lines 94-108). -/
def updateUIForLevel (levelName : String) (seconds : Nat) (keepScore : Bool)
    (s : GameState) : GameState :=
  let newWords := wordsByLevel levelName
  { s with
    timeLeft := (seconds : Int)
    currentWords := newWords
    scoreTotal := if keepScore then s.scoreTotal + newWords.length else newWords.length }

/-- Embeds `handleLevelChange` (lines 122-126); `newLevel` is the select's value. -/
def handleLevelChange (newLevel : String) (s : GameState) : GameState :=
  let s1 := { s with defaultLevelName := newLevel, defaultLevelSeconds := lvls newLevel }
  updateUIForLevel newLevel (lvls newLevel) false s1

/-- Embeds `getRandomWord` (lines 229-234).  `randomIndex` is the already-floored
`Math.floor(Math.random() * currentWords.length)`.  On an empty pool the
JS read `currentWords[0]` is `undefined`, modelled by `none`, and
`splice` is a no-op, as is `List.eraseIdx` out of bounds. -/
def getRandomWord (randomIndex : Nat) (s : GameState) : Option String × GameState :=
  (s.currentWords[randomIndex]?,
   { s with currentWords := s.currentWords.eraseIdx randomIndex })

/-- Embeds `displayCurrentWord` (lines 236-238).  Assigning `undefined` to
`innerHTML` renders the text `"undefined"`; the instrumentation flag
records that this happened. -/
def displayCurrentWord (word : Option String) (s : GameState) : GameState :=
  { s with theWord := word.getD "undefined", undefinedWord := s.undefinedWord || word.isNone }

/-- Embeds `displayUpcomingWords` (lines 240-247). -/
def displayUpcomingWords (s : GameState) : GameState :=
  { s with upcomingWords := s.currentWords }

/-- Embeds `startTimer` (lines 257-271): computes the duration (3 bonus seconds
on the first word of a level), displays it, clears the first-word flag
and starts a fresh `setInterval`.  Note that it does NOT clear any
previously live interval: it only overwrites the `currentTimer` handle. -/
def startTimer (s : GameState) : GameState :=
  let timeForThisWord := if s.isFirstWord then s.defaultLevelSeconds + 3 else s.defaultLevelSeconds
  { s with
    timeLeft := (timeForThisWord : Int)
    isFirstWord := false
    currentTimer := some s.nextTimerId
    liveTimers := s.nextTimerId :: s.liveTimers
    nextTimerId := s.nextTimerId + 1 }

/-- Models `clearInterval(h)`: removes the handle from the live set; clearing
`null`, an already-cleared or an already-fired handle is a no-op. -/
def clearTimer (h : Option Nat) (s : GameState) : GameState :=
  match h with
  | some i => { s with liveTimers := s.liveTimers.erase i }
  | none => s

/-- Embeds `generateNextWord` (lines 222-227). -/
def generateNextWord (randomIndex : Nat) (s : GameState) : GameState :=
  let (randomWord, s1) := getRandomWord randomIndex s
  let s2 := displayCurrentWord randomWord s1
  let s3 := displayUpcomingWords s2
  startTimer s3

/-- Embeds `showInputError` (lines 175-182).  The error beep and the 500 ms
class removal are presentation effects outside the state model. -/
def showInputError (s : GameState) : GameState :=
  { s with inputError := true }

/-- Embeds `resetInputError` (lines 184-186). -/
def resetInputError (s : GameState) : GameState :=
  { s with inputError := false }

/-- Embeds `handleInputValidation` (lines 140-153), run after the input's value
has changed. -/
def handleInputValidation (s : GameState) : GameState :=
  let currentWord := jsToLowerCase s.theWord
  let userInput := jsToLowerCase s.inputValue
  if userInput ≠ "" ∧ jsStartsWith currentWord userInput = false then
    let s1 := showInputError s
    { s1 with inputValue := jsSliceDropLast s1.inputValue }
  else
    resetInputError s

/-- Embeds `incrementScore` (lines 311-313). -/
def incrementScore (s : GameState) : GameState :=
  { s with scoreGot := s.scoreGot + 1 }

/-- Embeds `saveGameScore` (lines 382-386) composed with `saveScore`
(lines 399-411): appends one entry to the persisted history. -/
def saveGameScore (status : String) (s : GameState) : GameState :=
  { s with savedScores :=
      s.savedScores ++ [⟨s.scoreGot, s.scoreTotal, s.defaultLevelName, status⟩] }

/-- Embeds `displayLevelCompleteMessage` (lines 368-373). -/
def displayLevelCompleteMessage (nextLevel : String) (s : GameState) : GameState :=
  { s with finishMessages :=
      s.finishMessages ++ [("good", "Level Complete! Moving to " ++ nextLevel ++ "...")] }

/-- Embeds `displayEndMessage` (lines 375-380). -/
def displayEndMessage (message className : String) (s : GameState) : GameState :=
  { s with finishMessages := s.finishMessages ++ [(className, message)] }

/-- Embeds `advanceToNextLevel` (lines 344-366) up to the `setTimeout`: saves
the completed level's score, shows the transient message and queues the
2-second callback (carrying `nextLevel`). -/
def advanceToNextLevel (s : GameState) : GameState :=
  let currentLevelIndex := jsIndexOf levelProgression s.defaultLevelName
  let nextLevel := levelProgression.getD (currentLevelIndex + 1).toNat "undefined"
  let s1 := saveGameScore "win" s
  let s2 := displayLevelCompleteMessage nextLevel s1
  { s2 with pendingAdvances := s2.pendingAdvances ++ [nextLevel] }

/-- body of the `setTimeout` callback in `advanceToNextLevel`
(lines 355-365), run when the 2-second delay fires. -/
def advanceCallback (nextLevel : String) (randomIndex : Nat) (s : GameState) : GameState :=
  let s1 := { s with defaultLevelName := nextLevel, defaultLevelSeconds := lvls nextLevel }
  let s2 := updateUIForLevel nextLevel s1.defaultLevelSeconds true s1
  let s3 := { s2 with finishMessages := [], isFirstWord := true }
  generateNextWord randomIndex s3

/-- Embeds `endGame` (lines 318-338). -/
def endGame (status : String) (s : GameState) : GameState :=
  if status = "win" then
    let currentLevelIndex := jsIndexOf levelProgression s.defaultLevelName
    let hasNextLevel := currentLevelIndex < (levelProgression.length : Int) - 1
    if hasNextLevel then
      advanceToNextLevel s
    else
      let s1 := displayEndMessage "All Levels Completed!" "good" s
      let s2 := { s1 with upcomingRemoved := true }
      saveGameScore status s2
  else
    let s1 := displayEndMessage "Game Over" "bad" s
    saveGameScore status s1

/-- Embeds `handleCorrectAnswer` (lines 287-297). -/
def handleCorrectAnswer (randomIndex : Nat) (s : GameState) : GameState :=
  let s1 := { s with inputValue := "" }
  let s2 := resetInputError s1
  let s3 := incrementScore s2
  if s3.currentWords.length > 0 then generateNextWord randomIndex s3 else endGame "win" s3

/-- Embeds `handleWrongAnswer` (lines 299-309). -/
def handleWrongAnswer (randomIndex : Nat) (s : GameState) : GameState :=
  let s1 := { s with inputValue := "" }
  let s2 := resetInputError s1
  if s2.currentWords.length > 0 then generateNextWord randomIndex s2 else endGame "win" s2

/-- Embeds `checkAnswer` (lines 276-285), the timeout-path correctness check. -/
def checkAnswer (randomIndex : Nat) (s : GameState) : GameState :=
  if jsToLowerCase s.theWord = jsToLowerCase s.inputValue then
    handleCorrectAnswer randomIndex s
  else
    handleWrongAnswer randomIndex s

/-- Embeds `handleEnterKey` (lines 155-173), the Enter branch. -/
def handleEnterKey (randomIndex : Nat) (s : GameState) : GameState :=
  let currentWord := jsToLowerCase s.theWord
  let userInput := jsToLowerCase s.inputValue
  if currentWord = userInput then
    let s1 := clearTimer s.currentTimer s
    handleCorrectAnswer randomIndex s1
  else if userInput.length > 0 then
    showInputError s
  else s

/-- body of the `setInterval` callback in `startTimer` (lines 263-270),
run once per second while the interval `timerId` is live: decrements the
countdown and, at zero, clears `currentTimer` and checks the answer. -/
def timerTick (timerId : Nat) (randomIndex : Nat) (s : GameState) : GameState :=
  if s.liveTimers.contains timerId then
    let s1 := { s with timeLeft := s.timeLeft - 1 }
    if s1.timeLeft = 0 then
      checkAnswer randomIndex (clearTimer s1.currentTimer s1)
    else s1
  else s

/-- Embeds `handleStartGame` (lines 128-133): removes the start button and
begins the first round. -/
def handleStartGame (randomIndex : Nat) (s : GameState) : GameState :=
  let s1 := { s with startPresent := false, isFirstWord := true }
  generateNextWord randomIndex s1

/-- DOM and module state as loaded, before `initializeGame()` runs. -/
def domInitState : GameState :=
  { defaultLevelName := "Easy"
    defaultLevelSeconds := 5
    currentWords := []
    isFirstWord := true
    theWord := ""
    upcomingWords := []
    inputValue := ""
    timeLeft := 0
    scoreGot := 0
    scoreTotal := 0
    inputError := false
    startPresent := true
    liveTimers := []
    currentTimer := none
    nextTimerId := 0
    pendingAdvances := []
    finishMessages := []
    savedScores := []
    upcomingRemoved := false
    undefinedWord := false }

/-- state after `initializeGame()` (lines 89-92, 421). -/
def initState : GameState :=
  updateUIForLevel domInitState.defaultLevelName domInitState.defaultLevelSeconds false
    domInitState

/-! ## Event layer

The discrete external events the attached listeners react to.  Events
that may draw a random word carry the floored random index. -/

inductive GameEvent where
  /-- click on the start button -/
  | startClick (randomIndex : Nat)
  /-- The `change` event on the level select -/
  | levelChange (newLevel : String)
  /-- an `input` event: the field's value is now `newValue`, then
  `handleInputValidation` runs -/
  | inputEdit (newValue : String)
  /-- A `keydown` with `Enter` -/
  | enterKey (randomIndex : Nat)
  /-- one `setInterval` beat of timer `timerId` -/
  | tick (timerId : Nat) (randomIndex : Nat)
  /-- the earliest queued `setTimeout` of `advanceToNextLevel` fires -/
  | advanceFire (randomIndex : Nat)

def step (e : GameEvent) (s : GameState) : GameState :=
  match e with
  | .startClick r => if s.startPresent then handleStartGame r s else s
  | .levelChange l => handleLevelChange l s
  | .inputEdit v => handleInputValidation { s with inputValue := v }
  | .enterKey r => handleEnterKey r s
  | .tick i r => timerTick i r s
  | .advanceFire r =>
    match s.pendingAdvances with
    | [] => s
    | l :: rest => advanceCallback l r { s with pendingAdvances := rest }

/-- Models `Math.floor(Math.random() * len)`: the result lies below
`len`, except that for an empty pool it is `0`. -/
def validRandom (len r : Nat) : Prop := if len = 0 then r = 0 else r < len

/-- Which events the environment can deliver in state `s`: the floored
random index is in range for the pool it will draw from, the level
select only offers the three configured tiers, and the advance delay
needs a queued callback.  Typing and submitting are possible at any
time — `attachEventListeners` (lines 110-117) wires the input's
listeners at page load, before the Start click. -/
def validEvent (s : GameState) : GameEvent → Prop
  | .startClick r => validRandom s.currentWords.length r
  | .levelChange l => l ∈ levelProgression
  | .inputEdit _ => True
  | .enterKey r => validRandom s.currentWords.length r
  | .tick _ r => validRandom s.currentWords.length r
  | .advanceFire r =>
    match s.pendingAdvances with
    | [] => True
    | l :: _ => validRandom (wordsByLevel l).length r

/-- States reachable from page load by valid events. -/
inductive Reachable : GameState → Prop where
  | init : Reachable initState
  | next : ∀ {s : GameState} {e : GameEvent},
      Reachable s → validEvent s e → Reachable (step e s)

/-- The restricted event environment in which no keystroke or
submission is delivered before the Start click: the discipline the
spec's Round State assumes (no target word exists before game start).
The code itself does not enforce it — the listeners are live from page
load. -/
def validEventNoPrestartPlay (s : GameState) : GameEvent → Prop
  | .inputEdit _ => s.startPresent = false
  | .enterKey r => s.startPresent = false ∧ validRandom s.currentWords.length r
  | e => validEvent s e

/-- States reachable when the game is only played after the Start
click. -/
inductive ReachableNoPrestartPlay : GameState → Prop where
  | init : ReachableNoPrestartPlay initState
  | next : ∀ {s : GameState} {e : GameEvent},
      ReachableNoPrestartPlay s → validEventNoPrestartPlay s e →
      ReachableNoPrestartPlay (step e s)

/-! ## Helper lemmas -/

theorem jsToLowerCase_length (v : String) : (jsToLowerCase v).length = v.length := by
  show (v.data.map Char.toLower).length = v.data.length
  exact List.length_map v.data Char.toLower

theorem jsToLowerCase_eq_empty_iff (v : String) : jsToLowerCase v = "" ↔ v = "" := by
  rw [String.ext_iff, String.ext_iff]
  show v.data.map Char.toLower = [] ↔ v.data = []
  simp

@[simp]
theorem clearTimer_eq (h : Option Nat) (s : GameState) :
    clearTimer h s =
      { s with liveTimers := match h with
                             | some i => s.liveTimers.erase i
                             | none => s.liveTimers } := by
  cases h <;> rfl

@[simp]
theorem generateNextWord_undefinedWord (r : Nat) (s : GameState) :
    (generateNextWord r s).undefinedWord
      = (s.undefinedWord || (s.currentWords[r]?).isNone) := by
  simp [generateNextWord, getRandomWord, displayCurrentWord, displayUpcomingWords, startTimer]

@[simp]
theorem generateNextWord_defaultLevelName (r : Nat) (s : GameState) :
    (generateNextWord r s).defaultLevelName = s.defaultLevelName := by
  simp [generateNextWord, getRandomWord, displayCurrentWord, displayUpcomingWords, startTimer]

@[simp]
theorem generateNextWord_pendingAdvances (r : Nat) (s : GameState) :
    (generateNextWord r s).pendingAdvances = s.pendingAdvances := by
  simp [generateNextWord, getRandomWord, displayCurrentWord, displayUpcomingWords, startTimer]

@[simp]
theorem generateNextWord_startPresent (r : Nat) (s : GameState) :
    (generateNextWord r s).startPresent = s.startPresent := by
  simp [generateNextWord, getRandomWord, displayCurrentWord, displayUpcomingWords, startTimer]

@[simp]
theorem generateNextWord_scoreGot (r : Nat) (s : GameState) :
    (generateNextWord r s).scoreGot = s.scoreGot := by
  simp [generateNextWord, getRandomWord, displayCurrentWord, displayUpcomingWords, startTimer]

@[simp]
theorem generateNextWord_savedScores (r : Nat) (s : GameState) :
    (generateNextWord r s).savedScores = s.savedScores := by
  simp [generateNextWord, getRandomWord, displayCurrentWord, displayUpcomingWords, startTimer]

@[simp]
theorem jsIndexOf_easy : jsIndexOf levelProgression "Easy" = 0 := by decide

@[simp]
theorem jsIndexOf_normal : jsIndexOf levelProgression "Normal" = 1 := by decide

@[simp]
theorem jsIndexOf_hard : jsIndexOf levelProgression "Hard" = 2 := by decide

theorem mem_levelProgression_iff (l : String) :
    l ∈ levelProgression ↔ l = "Easy" ∨ l = "Normal" ∨ l = "Hard" := by
  simp [levelProgression]

theorem wordsByLevel_ne_nil {l : String} (h : l ∈ levelProgression) :
    wordsByLevel l ≠ [] := by
  rcases (mem_levelProgression_iff l).1 h with h' | h' | h' <;> subst h' <;> decide

/-! ## Claim checks -/

/-- C5: resetting the UI for a tier with `keepScore=false` sets the
cumulative total to exactly the tier's word-list length, and with
`keepScore=true` adds that length to the prior total; in particular a
prior total of 30 (completed Easy) advanced to Normal (32 words) yields
a cumulative total of 62. -/
theorem updateUIForLevel_score_total (s : GameState) (levelName : String) (seconds : Nat) :
    (updateUIForLevel levelName seconds false s).scoreTotal = (wordsByLevel levelName).length ∧
    (updateUIForLevel levelName seconds true s).scoreTotal
      = s.scoreTotal + (wordsByLevel levelName).length ∧
    (wordsByLevel "Easy").length = 30 ∧
    (wordsByLevel "Normal").length = 32 ∧
    (s.scoreTotal = 30 → (updateUIForLevel "Normal" 4 true s).scoreTotal = 62) := by
  refine ⟨by simp [updateUIForLevel], by simp [updateUIForLevel], by decide, by decide, ?_⟩
  intro h
  simp [updateUIForLevel, h]
  decide

theorem updateUIForLevel_score_total_witness :
    (updateUIForLevel "Normal" 4 true { domInitState with scoreTotal := 30 }).scoreTotal = 62 :=
  (updateUIForLevel_score_total { domInitState with scoreTotal := 30 } "Normal" 4).2.2.2.2 rfl

/-- C8: the timer for the first word of a tier runs for the tier budget
plus 3 seconds, every later word of the tier for the plain budget, and
the advance-to-next-tier callback raises the first-word flag again so
the bonus re-applies exactly once for the new tier. -/
theorem startTimer_first_word_bonus (s : GameState) (nextLevel : String) (r : Nat) :
    (s.isFirstWord = true → (startTimer s).timeLeft = (s.defaultLevelSeconds : Int) + 3) ∧
    (s.isFirstWord = false → (startTimer s).timeLeft = (s.defaultLevelSeconds : Int)) ∧
    (startTimer s).isFirstWord = false ∧
    (startTimer (startTimer s)).timeLeft = (s.defaultLevelSeconds : Int) ∧
    (advanceCallback nextLevel r s).isFirstWord = false ∧
    (advanceCallback nextLevel r s).timeLeft = (lvls nextLevel : Int) + 3 := by
  refine ⟨fun h => ?_, fun h => ?_, ?_, ?_, ?_, ?_⟩ <;>
    simp [startTimer, advanceCallback, updateUIForLevel, generateNextWord, getRandomWord,
      displayCurrentWord, displayUpcomingWords, *]

theorem startTimer_first_word_bonus_witness :
    (startTimer { domInitState with isFirstWord := true, defaultLevelSeconds := 5 }).timeLeft = 8 := by
  have h := startTimer_first_word_bonus
    { domInitState with isFirstWord := true, defaultLevelSeconds := 5 } "Normal" 0
  exact (h.1 rfl).trans (by decide)

/-- C2 counterexample: in a state with a live timer, `startTimer` does
not cancel it — the old instance stays live and its next tick still
fires with effect after the new instance starts. -/
def sOneTimer : GameState :=
  { domInitState with
    startPresent := false, theWord := "Hello", timeLeft := 5,
    liveTimers := [0], currentTimer := some 0, nextTimerId := 1 }

theorem startTimer_does_not_cancel_previous :
    sOneTimer.currentTimer = some 0 ∧ 0 ∈ sOneTimer.liveTimers ∧
    0 ∈ (startTimer sOneTimer).liveTimers ∧
    timerTick 0 0 (startTimer sOneTimer) ≠ startTimer sOneTimer := by decide

/-- C2 (amended): starting a new timer never cancels a previously live
instance: every live interval survives `startTimer`, whose live set just
grows by the freshly started instance. -/
theorem startTimer_previous_stays_live (s : GameState) (i : Nat) (h : i ∈ s.liveTimers) :
    i ∈ (startTimer s).liveTimers ∧
    (startTimer s).liveTimers.length = s.liveTimers.length + 1 := by
  simp [startTimer]
  exact Or.inr h

theorem startTimer_previous_stays_live_witness :
    0 ∈ (startTimer sOneTimer).liveTimers ∧
    (startTimer sOneTimer).liveTimers.length = 2 := by
  have h := startTimer_previous_stays_live sOneTimer 0 (by decide)
  exact ⟨h.1, h.2.trans (by decide)⟩

/-- C1 counterexample: a stored value that is not valid JSON does not
yield the empty history — `JSON.parse` raises, and `getScoreHistory`
propagates the exception. -/
theorem getScoreHistory_corrupt_raises :
    getScoreHistory (some "corrupt") = .error "SyntaxError" ∧
    getScoreHistory (some "corrupt") ≠ .ok (.jarr []) := by
  refine ⟨rfl, fun h => ?_⟩
  have e : getScoreHistory (some "corrupt") = .error "SyntaxError" := rfl
  rw [e] at h
  exact Except.noConfusion h

/-- C1 (amended): an absent stored value (and, by JS truthiness, an
empty stored string) reads as the empty history, and a well-formed
stored array parses; but a present, non-empty, corrupt value makes
`getScoreHistory` raise the `JSON.parse` `SyntaxError` instead of
yielding the empty history. -/
theorem getScoreHistory_missing_vs_corrupt :
    getScoreHistory none = .ok (.jarr []) ∧
    getScoreHistory (some "") = .ok (.jarr []) ∧
    getScoreHistory (some "[]") = .ok (.jarr []) ∧
    (∀ (v : String) (e : String), v ≠ "" → jsonParse v = .error e →
      getScoreHistory (some v) = .error e) := by
  refine ⟨rfl, rfl, rfl, fun v e hv hp => ?_⟩
  simp [getScoreHistory, hv, hp]

theorem getScoreHistory_missing_vs_corrupt_witness :
    getScoreHistory (some "[1,2") = .error "SyntaxError" :=
  getScoreHistory_missing_vs_corrupt.2.2.2 "[1,2" "SyntaxError" (by decide) rfl

theorem length_pos_of_ne_empty {v : String} (h : v ≠ "") : 0 < v.length := by
  have hd : v.data ≠ [] := fun hh => h (String.ext_iff.2 hh)
  show 0 < v.data.length
  exact List.length_pos.mpr hd

theorem endGame_fields (st : String) (s : GameState) :
    (endGame st s).scoreGot = s.scoreGot ∧
    (endGame st s).startPresent = s.startPresent ∧
    (endGame st s).undefinedWord = s.undefinedWord ∧
    (endGame st s).defaultLevelName = s.defaultLevelName ∧
    (endGame st s).currentWords = s.currentWords ∧
    (endGame st s).liveTimers = s.liveTimers ∧
    (endGame st s).scoreTotal = s.scoreTotal := by
  simp only [endGame, advanceToNextLevel, saveGameScore, displayLevelCompleteMessage,
    displayEndMessage]
  split
  · split <;> exact ⟨rfl, rfl, rfl, rfl, rfl, rfl, rfl⟩
  · exact ⟨rfl, rfl, rfl, rfl, rfl, rfl, rfl⟩

@[simp]
theorem endGame_scoreGot (st : String) (s : GameState) :
    (endGame st s).scoreGot = s.scoreGot := (endGame_fields st s).1

@[simp]
theorem endGame_startPresent (st : String) (s : GameState) :
    (endGame st s).startPresent = s.startPresent := (endGame_fields st s).2.1

@[simp]
theorem endGame_undefinedWord (st : String) (s : GameState) :
    (endGame st s).undefinedWord = s.undefinedWord := (endGame_fields st s).2.2.1

@[simp]
theorem endGame_defaultLevelName (st : String) (s : GameState) :
    (endGame st s).defaultLevelName = s.defaultLevelName := (endGame_fields st s).2.2.2.1

@[simp]
theorem endGame_currentWords (st : String) (s : GameState) :
    (endGame st s).currentWords = s.currentWords := (endGame_fields st s).2.2.2.2.1

theorem handleCorrectAnswer_scoreGot (r : Nat) (s : GameState) :
    (handleCorrectAnswer r s).scoreGot = s.scoreGot + 1 := by
  simp only [handleCorrectAnswer, resetInputError, incrementScore]
  split
  · simp
  · simp

/-- C7: on Enter, a case-insensitively matching input cancels the active
timer and resolves the round as correct (score incremented, next word
drawn or game ended); a non-empty non-matching input only triggers error
feedback and leaves everything else unchanged (round pending, timer
running); an empty input against a non-empty target is a no-op. -/
theorem handleEnterKey_submit (s : GameState) (r : Nat) :
    (jsToLowerCase s.theWord = jsToLowerCase s.inputValue →
      handleEnterKey r s = handleCorrectAnswer r (clearTimer s.currentTimer s) ∧
      (handleEnterKey r s).scoreGot = s.scoreGot + 1) ∧
    (jsToLowerCase s.theWord ≠ jsToLowerCase s.inputValue → s.inputValue ≠ "" →
      handleEnterKey r s = { s with inputError := true }) ∧
    (s.inputValue = "" → s.theWord ≠ "" → handleEnterKey r s = s) := by
  refine ⟨fun hEq => ⟨?_, ?_⟩, fun hNe hne => ?_, fun hemp htw => ?_⟩
  · simp only [handleEnterKey, if_pos hEq]
  · simp only [handleEnterKey, if_pos hEq]
    rw [handleCorrectAnswer_scoreGot]
    simp
  · have h2 : (jsToLowerCase s.inputValue).length > 0 := by
      rw [jsToLowerCase_length]
      exact length_pos_of_ne_empty hne
    simp only [handleEnterKey, if_neg hNe, if_pos h2, showInputError]
  · have h1 : jsToLowerCase s.theWord ≠ jsToLowerCase s.inputValue := by
      rw [hemp]
      intro hh
      exact htw ((jsToLowerCase_eq_empty_iff _).1 hh)
    have h2 : ¬ ((jsToLowerCase s.inputValue).length > 0) := by
      rw [hemp]
      decide
    simp only [handleEnterKey, if_neg h1, if_neg h2]

theorem handleEnterKey_submit_witness :
    handleEnterKey 0 { sOneTimer with inputValue := "HELLO" }
      = handleCorrectAnswer 0 (clearTimer (some 0) { sOneTimer with inputValue := "HELLO" }) ∧
    (handleEnterKey 0 { sOneTimer with inputValue := "HELLO" }).scoreGot = 1 ∧
    handleEnterKey 0 { sOneTimer with inputValue := "Hel" }
      = { sOneTimer with inputValue := "Hel", inputError := true } ∧
    handleEnterKey 0 sOneTimer = sOneTimer := by
  have hEq := (handleEnterKey_submit { sOneTimer with inputValue := "HELLO" } 0).1 (by decide)
  have hNe := (handleEnterKey_submit { sOneTimer with inputValue := "Hel" } 0).2.1
    (by decide) (by decide)
  have hEmp := (handleEnterKey_submit sOneTimer 0).2.2 rfl (by decide)
  exact ⟨hEq.1, hEq.2.trans (by decide), hNe, hEmp⟩

/-- C9: a live keystroke leaving a non-empty input that is not a
case-insensitive beginning of the target word signals the error state
and discards exactly the last (most recently typed) character; an empty
input or a valid beginning clears the error state and leaves the input
unchanged. -/
theorem handleInputValidation_keystroke (s : GameState) :
    (s.inputValue ≠ "" →
      jsStartsWith (jsToLowerCase s.theWord) (jsToLowerCase s.inputValue) = false →
      handleInputValidation s
        = { s with inputError := true, inputValue := jsSliceDropLast s.inputValue } ∧
      (handleInputValidation s).inputValue.length + 1 = s.inputValue.length) ∧
    (s.inputValue = "" ∨
      jsStartsWith (jsToLowerCase s.theWord) (jsToLowerCase s.inputValue) = true →
      handleInputValidation s = { s with inputError := false }) := by
  constructor
  · intro hne hpref
    have hc : jsToLowerCase s.inputValue ≠ "" :=
      fun hh => hne ((jsToLowerCase_eq_empty_iff _).1 hh)
    have heq : handleInputValidation s
        = { s with inputError := true, inputValue := jsSliceDropLast s.inputValue } := by
      simp only [handleInputValidation, showInputError]
      rw [if_pos ⟨hc, hpref⟩]
    refine ⟨heq, ?_⟩
    rw [heq]
    show (s.inputValue.data.dropLast).length + 1 = s.inputValue.data.length
    have hd : s.inputValue.data ≠ [] := fun hh => hne (String.ext_iff.2 hh)
    rw [List.length_dropLast]
    have := List.length_pos.mpr hd
    omega
  · intro h
    have hcond : ¬ (jsToLowerCase s.inputValue ≠ "" ∧
        jsStartsWith (jsToLowerCase s.theWord) (jsToLowerCase s.inputValue) = false) := by
      rcases h with h | h
      · intro hc
        exact hc.1 ((jsToLowerCase_eq_empty_iff _).2 h)
      · intro hc
        rw [h] at hc
        exact Bool.noConfusion hc.2
    simp only [handleInputValidation, resetInputError]
    rw [if_neg hcond]

theorem handleInputValidation_keystroke_witness :
    handleInputValidation { sOneTimer with inputValue := "Hx" }
      = { sOneTimer with inputValue := "H", inputError := true } ∧
    handleInputValidation { sOneTimer with inputValue := "he" }
      = { sOneTimer with inputValue := "he", inputError := false } := by
  have h1 := (handleInputValidation_keystroke { sOneTimer with inputValue := "Hx" }).1
    (by decide) (by decide)
  have h2 := (handleInputValidation_keystroke { sOneTimer with inputValue := "he" }).2
    (Or.inr (by decide))
  exact ⟨h1.1.trans (by decide), h2⟩

/-- concrete mid-round state for the C3 check: game started (first word
"Hello" drawn), the player has typed the valid but incomplete beginning
"Hel", one second left on the live timer. -/
def sRoundC3 : GameState :=
  { step (.inputEdit "Hel") (step (.startClick 0) initState) with timeLeft := 1 }

/-- C3 counterexample: with target "Hello" and input "Hel" (non-empty,
not equal), the timer reaching zero advances the round (pool shrinks,
new word displayed) while an explicit Enter submission leaves the round
completely unresolved — the two transitions are not identical. -/
theorem timeout_vs_enter_differ :
    jsToLowerCase sRoundC3.theWord ≠ jsToLowerCase sRoundC3.inputValue ∧
    sRoundC3.inputValue = "Hel" ∧
    sRoundC3.currentTimer = some 0 ∧ sRoundC3.liveTimers = [0] ∧
    (step (.enterKey 0) sRoundC3).currentWords = sRoundC3.currentWords ∧
    (step (.enterKey 0) sRoundC3).theWord = sRoundC3.theWord ∧
    (step (.tick 0 0) sRoundC3).currentWords ≠ sRoundC3.currentWords ∧
    (step (.tick 0 0) sRoundC3).theWord ≠ sRoundC3.theWord ∧
    step (.tick 0 0) sRoundC3 ≠ step (.enterKey 0) sRoundC3 := by decide

/-- C3 (amended): the timeout path always resolves the round — with a
non-matching input it runs `handleWrongAnswer`, which advances to the
next word or ends the game; an explicit Enter with a non-matching input
does NOT resolve the round: non-empty input only triggers error
feedback, empty input does nothing, and the timer keeps running. -/
theorem timeout_resolves_but_enter_pends (s : GameState) (r i : Nat)
    (hNe : jsToLowerCase s.theWord ≠ jsToLowerCase s.inputValue) :
    checkAnswer r s = handleWrongAnswer r s ∧
    (s.liveTimers.contains i = true → s.timeLeft = 1 →
      timerTick i r s
        = handleWrongAnswer r (clearTimer s.currentTimer { s with timeLeft := 0 })) ∧
    (s.inputValue ≠ "" → handleEnterKey r s = { s with inputError := true }) ∧
    (s.inputValue = "" → handleEnterKey r s = s) := by
  refine ⟨?_, fun hlive htime => ?_, fun hne => ?_, fun hemp => ?_⟩
  · simp only [checkAnswer, if_neg hNe]
  · simp only [timerTick, if_pos hlive, htime]
    rw [if_pos (by norm_num)]
    show checkAnswer r (clearTimer s.currentTimer { s with timeLeft := (1 : Int) - 1 }) = _
    have h10 : (1 : Int) - 1 = 0 := by norm_num
    rw [h10]
    have hNe2 : jsToLowerCase (clearTimer s.currentTimer { s with timeLeft := (0 : Int) }).theWord
        ≠ jsToLowerCase (clearTimer s.currentTimer { s with timeLeft := (0 : Int) }).inputValue := by
      simpa using hNe
    simp only [checkAnswer, if_neg hNe2]
  · have h2 : (jsToLowerCase s.inputValue).length > 0 := by
      rw [jsToLowerCase_length]
      exact length_pos_of_ne_empty hne
    simp only [handleEnterKey, if_neg hNe, if_pos h2, showInputError]
  · have h2 : ¬ ((jsToLowerCase s.inputValue).length > 0) := by
      rw [hemp]
      decide
    simp only [handleEnterKey, if_neg hNe, if_neg h2]

theorem timeout_resolves_but_enter_pends_witness :
    checkAnswer 0 sRoundC3 = handleWrongAnswer 0 sRoundC3 ∧
    timerTick 0 0 sRoundC3
      = handleWrongAnswer 0 (clearTimer (some 0) { sRoundC3 with timeLeft := 0 }) ∧
    handleEnterKey 0 sRoundC3 = { sRoundC3 with inputError := true } := by
  have h := timeout_resolves_but_enter_pends sRoundC3 0 0 (by decide)
  refine ⟨h.1, ?_, h.2.2.1 (by decide)⟩
  have ht := h.2.1 (by decide) (by decide)
  exact ht.trans (by decide)

/-- concrete state for the C4 check: mid-round on the last word of the
Hard tier (pool already empty), the matching input fully typed, Easy and
Normal already banked in the score history. -/
def sHardLast : GameState :=
  { domInitState with
    defaultLevelName := "Hard", defaultLevelSeconds := 5,
    currentWords := [], isFirstWord := false,
    theWord := "Performance", inputValue := "Performance",
    timeLeft := 3, scoreGot := 91, scoreTotal := 92,
    startPresent := false, liveTimers := [91], currentTimer := some 91, nextTimerId := 92,
    savedScores := [⟨30, 30, "Easy", "win"⟩, ⟨61, 62, "Normal", "win"⟩] }

/-- the state after winning the game on the last Hard word. -/
def sWonC4 : GameState := step (.enterKey 0) sHardLast

/-- the state after typing the still-displayed final word again and
pressing Enter in the won state. -/
def sPostWin : GameState := step (.enterKey 0) (step (.inputEdit "Performance") sWonC4)

/-- C4 counterexample: exhausting the Hard pool does emit one win entry
and a completion message, but the resulting state is not terminal: the
input stays wired, and re-typing the still-displayed word followed by
Enter changes the state again — the score passes the total and a second
win Score Entry is appended. -/
theorem won_state_accepts_further_input :
    sWonC4.currentWords = [] ∧ sWonC4.defaultLevelName = "Hard" ∧
    sWonC4.startPresent = false ∧
    (sWonC4.savedScores.filter (fun e => e.level == "Hard" && e.status == "win")).length = 1 ∧
    sWonC4.finishMessages = [("good", "All Levels Completed!")] ∧
    sPostWin ≠ sWonC4 ∧
    sPostWin.savedScores.length = sWonC4.savedScores.length + 1 ∧
    (sPostWin.savedScores.filter (fun e => e.level == "Hard" && e.status == "win")).length = 2 ∧
    sPostWin.scoreGot = sWonC4.scoreGot + 1 ∧
    sPostWin.scoreGot = sPostWin.scoreTotal + 1 := by decide

/-- computes `endGame "win"` in a state whose level is the last tier. -/
theorem endGame_win_hard (s : GameState) (h : s.defaultLevelName = "Hard") :
    endGame "win" s =
      { s with
        finishMessages := s.finishMessages ++ [("good", "All Levels Completed!")],
        upcomingRemoved := true,
        savedScores := s.savedScores ++ [⟨s.scoreGot, s.scoreTotal, "Hard", "win"⟩] } := by
  simp only [endGame, advanceToNextLevel, saveGameScore, displayLevelCompleteMessage,
    displayEndMessage, h, jsIndexOf_hard]
  rw [if_pos trivial,
    if_neg (show ¬ ((2 : Int) < (levelProgression.length : Int) - 1) by decide)]

/-- C4 (amended): whenever the Hard pool is empty and a matching input
is submitted, exactly one win Score Entry for Hard is appended and the
completion message is displayed; but since this holds of every such
state — including the "won" state itself, whose target word stays on
display — the terminal state keeps accepting submissions, each emitting
a further entry and incrementing the score. -/
theorem hard_exhaustion_emits_win_entry (s : GameState) (r : Nat)
    (hLvl : s.defaultLevelName = "Hard") (hPool : s.currentWords = [])
    (hEq : jsToLowerCase s.theWord = jsToLowerCase s.inputValue) :
    (handleEnterKey r s).savedScores
      = s.savedScores ++ [⟨s.scoreGot + 1, s.scoreTotal, "Hard", "win"⟩] ∧
    (handleEnterKey r s).scoreGot = s.scoreGot + 1 ∧
    (handleEnterKey r s).finishMessages
      = s.finishMessages ++ [("good", "All Levels Completed!")] ∧
    (handleEnterKey r s).currentWords = [] ∧
    (handleEnterKey r s).defaultLevelName = "Hard" ∧
    (handleEnterKey r s).theWord = s.theWord ∧
    (handleEnterKey r s).startPresent = s.startPresent := by
  have hstep : handleEnterKey r s
      = endGame "win"
          { s with liveTimers := (clearTimer s.currentTimer s).liveTimers,
                   inputValue := "", inputError := false, scoreGot := s.scoreGot + 1 } := by
    simp only [handleEnterKey, if_pos hEq, handleCorrectAnswer, resetInputError,
      incrementScore, clearTimer_eq]
    rw [if_neg (by simp [hPool])]
  rw [hstep, endGame_win_hard _ (by simp [hLvl])]
  simp [hLvl, hPool]

theorem hard_exhaustion_emits_win_entry_witness :
    (handleEnterKey 0 sHardLast).savedScores
      = [⟨30, 30, "Easy", "win"⟩, ⟨61, 62, "Normal", "win"⟩, ⟨92, 92, "Hard", "win"⟩] ∧
    (handleEnterKey 0 sHardLast).finishMessages = [("good", "All Levels Completed!")] := by
  have h := hard_exhaustion_emits_win_entry sHardLast 0 rfl rfl rfl
  exact ⟨h.1.trans (by decide), h.2.2.1.trans (by decide)⟩

/-! ## Without-replacement selection (C6) -/

/-- iterates `getRandomWord` over a list of floored random indices,
collecting the selected words. -/
def selectRun (rs : List Nat) (s : GameState) : List (Option String) × GameState :=
  match rs with
  | [] => ([], s)
  | r :: rest =>
    let (w, s1) := getRandomWord r s
    let (ws, s2) := selectRun rest s1
    (w :: ws, s2)

/-- each index is in bounds for the pool as it shrinks by one per draw,
as `Math.floor(Math.random() * length)` is for a non-empty pool. -/
def validIdxRun : List Nat → Nat → Bool
  | [], _ => true
  | r :: rs, n => decide (r < n) && validIdxRun rs (n - 1)

theorem getElem_notMem_eraseIdx {α : Type} : ∀ (l : List α) (r : Nat) (h : r < l.length),
    l.Nodup → l[r] ∉ l.eraseIdx r := by
  intro l
  induction l with
  | nil => intro r h; simp at h
  | cons a tl ih =>
    intro r h hnd
    have hnd' := List.nodup_cons.1 hnd
    cases r with
    | zero =>
      simpa [List.eraseIdx] using hnd'.1
    | succ n =>
      intro hmem
      have hn : n < tl.length := Nat.lt_of_succ_lt_succ h
      have hget : (a :: tl)[n + 1] = tl[n] := by simp
      rw [hget] at hmem
      rcases List.mem_cons.1 (by simpa [List.eraseIdx] using hmem) with heq | hmem'
      · exact hnd'.1 (heq ▸ List.getElem_mem hn)
      · exact ih n hn hnd'.2 hmem'

theorem selectRun_spec : ∀ (rs : List Nat) (s : GameState),
    s.currentWords.Nodup → validIdxRun rs s.currentWords.length = true →
    ((selectRun rs s).1.reduceOption).Nodup ∧
    (∀ w ∈ (selectRun rs s).1.reduceOption, w ∈ s.currentWords) ∧
    List.Sublist (selectRun rs s).2.currentWords s.currentWords ∧
    (selectRun rs s).2.currentWords.length = s.currentWords.length - rs.length := by
  intro rs
  induction rs with
  | nil =>
    intro s hnd hv
    simp [selectRun]
  | cons r rest ih =>
    intro s hnd hv
    rw [validIdxRun, Bool.and_eq_true, decide_eq_true_eq] at hv
    obtain ⟨hr, hv'⟩ := hv
    have hs1nd : (s.currentWords.eraseIdx r).Nodup := (List.eraseIdx_sublist _ r).nodup hnd
    have hs1len : (s.currentWords.eraseIdx r).length = s.currentWords.length - 1 := by
      have := List.length_eraseIdx_add_one hr
      omega
    have hv2 : validIdxRun rest
        ({ s with currentWords := s.currentWords.eraseIdx r } : GameState).currentWords.length
        = true := by
      show validIdxRun rest (s.currentWords.eraseIdx r).length = true
      rw [hs1len]
      exact hv'
    obtain ⟨ih1, ih2, ih3, ih4⟩ :=
      ih { s with currentWords := s.currentWords.eraseIdx r } hs1nd hv2
    have hhead : s.currentWords[r]? = some s.currentWords[r] := List.getElem?_eq_getElem hr
    simp only [selectRun, getRandomWord, hhead, List.reduceOption_cons_of_some]
    refine ⟨List.nodup_cons.2 ⟨fun hmem => ?_, ih1⟩, ?_, ?_, ?_⟩
    · exact getElem_notMem_eraseIdx _ r hr hnd (ih2 _ hmem)
    · intro w hw
      rcases List.mem_cons.1 hw with heq | hmem'
      · exact heq ▸ List.getElem_mem hr
      · exact List.Sublist.subset (List.eraseIdx_sublist _ r) (ih2 _ hmem')
    · exact ih3.trans (List.eraseIdx_sublist _ r)
    · show (selectRun rest _).2.currentWords.length = s.currentWords.length - (rest.length + 1)
      rw [ih4]
      show (s.currentWords.eraseIdx r).length - rest.length = _
      omega

/-- C6: drawing from a non-empty pool returns the word at the random
index and removes exactly it, so the pool shrinks by exactly one per
call; over any run of in-bounds draws on a duplicate-free pool no word
is ever selected twice; and each tier's word list is duplicate-free. -/
theorem getRandomWord_no_replacement (s : GameState) (r : Nat) (h : r < s.currentWords.length)
    (rs : List Nat) :
    (getRandomWord r s).1 = some (s.currentWords.get ⟨r, h⟩) ∧
    (getRandomWord r s).2.currentWords.length + 1 = s.currentWords.length ∧
    (s.currentWords.Nodup →
      s.currentWords.get ⟨r, h⟩ ∉ (getRandomWord r s).2.currentWords) ∧
    (s.currentWords.Nodup → validIdxRun rs s.currentWords.length = true →
      ((selectRun rs s).1.reduceOption).Nodup) ∧
    (∀ l ∈ levelProgression, (wordsByLevel l).Nodup) := by
  refine ⟨?_, ?_, fun hnd => ?_, fun hnd hv => (selectRun_spec rs s hnd hv).1, ?_⟩
  · simp [getRandomWord, List.getElem?_eq_getElem h]
  · show (s.currentWords.eraseIdx r).length + 1 = s.currentWords.length
    exact List.length_eraseIdx_add_one h
  · show s.currentWords.get ⟨r, h⟩ ∉ s.currentWords.eraseIdx r
    rw [List.get_eq_getElem]
    exact getElem_notMem_eraseIdx _ r h hnd
  · intro l hl
    rcases (mem_levelProgression_iff l).1 hl with h' | h' | h' <;> subst h' <;> decide

theorem getRandomWord_no_replacement_witness :
    (getRandomWord 0 initState).1 = some "Hello" ∧
    ((selectRun [0, 0, 0] initState).1.reduceOption).Nodup := by
  have h := getRandomWord_no_replacement initState 0 (by decide) [0, 0, 0]
  exact ⟨h.1.trans (by decide), h.2.2.2.1 (by decide) (by decide)⟩

/-! ## Reachability analysis of the word draws (C10) -/

/-- the invariant every handler preserves: the current level is one of
the three configured tiers, and so is every queued advance target. -/
def LevelsOk (s : GameState) : Prop :=
  s.defaultLevelName ∈ levelProgression ∧
  ∀ l ∈ s.pendingAdvances, l ∈ levelProgression

theorem endGame_win_easy (s : GameState) (h : s.defaultLevelName = "Easy") :
    endGame "win" s =
      { s with
        savedScores := s.savedScores ++ [⟨s.scoreGot, s.scoreTotal, "Easy", "win"⟩],
        finishMessages := s.finishMessages
          ++ [("good", "Level Complete! Moving to Normal...")],
        pendingAdvances := s.pendingAdvances ++ ["Normal"] } := by
  have hnext : levelProgression.getD ((0 : Int) + 1).toNat "undefined" = "Normal" := by decide
  simp only [endGame, advanceToNextLevel, saveGameScore, displayLevelCompleteMessage,
    displayEndMessage, h, jsIndexOf_easy, hnext]
  rw [if_pos trivial,
    if_pos (show (0 : Int) < (levelProgression.length : Int) - 1 by decide)]
  rw [show ("Level Complete! Moving to " ++ "Normal" ++ "..." : String)
      = "Level Complete! Moving to Normal..." from by decide]

theorem endGame_win_normal (s : GameState) (h : s.defaultLevelName = "Normal") :
    endGame "win" s =
      { s with
        savedScores := s.savedScores ++ [⟨s.scoreGot, s.scoreTotal, "Normal", "win"⟩],
        finishMessages := s.finishMessages
          ++ [("good", "Level Complete! Moving to Hard...")],
        pendingAdvances := s.pendingAdvances ++ ["Hard"] } := by
  have hnext : levelProgression.getD ((1 : Int) + 1).toNat "undefined" = "Hard" := by decide
  simp only [endGame, advanceToNextLevel, saveGameScore, displayLevelCompleteMessage,
    displayEndMessage, h, jsIndexOf_normal, hnext]
  rw [if_pos trivial,
    if_pos (show (1 : Int) < (levelProgression.length : Int) - 1 by decide)]
  rw [show ("Level Complete! Moving to " ++ "Hard" ++ "..." : String)
      = "Level Complete! Moving to Hard..." from by decide]

theorem endGame_win_pending (s : GameState) (h2 : s.defaultLevelName ∈ levelProgression)
    (h3 : ∀ l ∈ s.pendingAdvances, l ∈ levelProgression) :
    ∀ l ∈ (endGame "win" s).pendingAdvances, l ∈ levelProgression := by
  rcases (mem_levelProgression_iff _).1 h2 with h | h | h
  · rw [endGame_win_easy s h]
    intro l hl
    rcases List.mem_append.1 hl with hmem | hmem
    · exact h3 l hmem
    · rw [List.mem_singleton.1 hmem]; decide
  · rw [endGame_win_normal s h]
    intro l hl
    rcases List.mem_append.1 hl with hmem | hmem
    · exact h3 l hmem
    · rw [List.mem_singleton.1 hmem]; decide
  · rw [endGame_win_hard s h]
    intro l hl
    exact h3 l hl

theorem validRandom_lt {len r : Nat} (hr : validRandom len r) (h0 : len ≠ 0) : r < len := by
  unfold validRandom at hr
  rwa [if_neg h0] at hr

theorem step_draw_facts (s : GameState) (r : Nat) (hL : LevelsOk s) :
    LevelsOk (if s.currentWords.length > 0 then generateNextWord r s else endGame "win" s) ∧
    (if s.currentWords.length > 0 then generateNextWord r s
      else endGame "win" s).startPresent = s.startPresent ∧
    (validRandom s.currentWords.length r →
      (if s.currentWords.length > 0 then generateNextWord r s
        else endGame "win" s).undefinedWord = s.undefinedWord) := by
  obtain ⟨h2, h3⟩ := hL
  split
  · rename_i hpos
    refine ⟨⟨by simpa using h2, by simpa using h3⟩, by simp, fun hr => ?_⟩
    have hlt : r < s.currentWords.length := validRandom_lt hr (by omega)
    simp [List.getElem?_eq_getElem hlt]
  · exact ⟨⟨by simp [h2], endGame_win_pending s h2 h3⟩, by simp, fun _ => by simp⟩

theorem handleCorrectAnswer_facts (r : Nat) (s : GameState) (hL : LevelsOk s) :
    LevelsOk (handleCorrectAnswer r s) ∧
    (handleCorrectAnswer r s).startPresent = s.startPresent ∧
    (validRandom s.currentWords.length r →
      (handleCorrectAnswer r s).undefinedWord = s.undefinedWord) := by
  simp only [handleCorrectAnswer, resetInputError, incrementScore]
  exact step_draw_facts
    { s with inputValue := "", inputError := false, scoreGot := s.scoreGot + 1 } r
    ⟨hL.1, hL.2⟩

theorem handleWrongAnswer_facts (r : Nat) (s : GameState) (hL : LevelsOk s) :
    LevelsOk (handleWrongAnswer r s) ∧
    (handleWrongAnswer r s).startPresent = s.startPresent ∧
    (validRandom s.currentWords.length r →
      (handleWrongAnswer r s).undefinedWord = s.undefinedWord) := by
  simp only [handleWrongAnswer, resetInputError]
  exact step_draw_facts { s with inputValue := "", inputError := false } r ⟨hL.1, hL.2⟩

theorem checkAnswer_facts (r : Nat) (s : GameState) (hL : LevelsOk s) :
    LevelsOk (checkAnswer r s) ∧ (checkAnswer r s).startPresent = s.startPresent ∧
    (validRandom s.currentWords.length r →
      (checkAnswer r s).undefinedWord = s.undefinedWord) := by
  simp only [checkAnswer]
  split
  · exact handleCorrectAnswer_facts r s hL
  · exact handleWrongAnswer_facts r s hL

theorem handleEnterKey_facts (r : Nat) (s : GameState) (hL : LevelsOk s) :
    LevelsOk (handleEnterKey r s) ∧ (handleEnterKey r s).startPresent = s.startPresent ∧
    (validRandom s.currentWords.length r →
      (handleEnterKey r s).undefinedWord = s.undefinedWord) := by
  simp only [handleEnterKey]
  split
  · rw [clearTimer_eq]
    exact handleCorrectAnswer_facts r _ ⟨hL.1, hL.2⟩
  · split
    · exact ⟨⟨hL.1, hL.2⟩, rfl, fun _ => rfl⟩
    · exact ⟨hL, rfl, fun _ => rfl⟩

theorem timerTick_facts (i r : Nat) (s : GameState) (hL : LevelsOk s) :
    LevelsOk (timerTick i r s) ∧ (timerTick i r s).startPresent = s.startPresent ∧
    (validRandom s.currentWords.length r →
      (timerTick i r s).undefinedWord = s.undefinedWord) := by
  simp only [timerTick]
  split
  · split
    · rw [clearTimer_eq]
      exact checkAnswer_facts r _ ⟨hL.1, hL.2⟩
    · exact ⟨⟨hL.1, hL.2⟩, rfl, fun _ => rfl⟩
  · exact ⟨hL, rfl, fun _ => rfl⟩

theorem handleStartGame_facts (r : Nat) (s : GameState) (hL : LevelsOk s) :
    LevelsOk (handleStartGame r s) ∧ (handleStartGame r s).startPresent = false ∧
    (s.currentWords ≠ [] → validRandom s.currentWords.length r →
      (handleStartGame r s).undefinedWord = s.undefinedWord) := by
  simp only [handleStartGame]
  refine ⟨⟨by simpa using hL.1, by simpa using hL.2⟩, by simp, fun hne hr => ?_⟩
  have hlt : r < s.currentWords.length :=
    validRandom_lt hr (fun h0 => hne (List.length_eq_zero.1 h0))
  simp [List.getElem?_eq_getElem hlt]

theorem advanceCallback_facts (l : String) (r : Nat) (s : GameState)
    (hl : l ∈ levelProgression) (h3 : ∀ x ∈ s.pendingAdvances, x ∈ levelProgression)
    (hr : validRandom (wordsByLevel l).length r) :
    LevelsOk (advanceCallback l r s) ∧
    (advanceCallback l r s).startPresent = s.startPresent ∧
    (advanceCallback l r s).undefinedWord = s.undefinedWord := by
  have hne := wordsByLevel_ne_nil hl
  have hlt : r < (wordsByLevel l).length :=
    validRandom_lt hr (fun h0 => hne (List.length_eq_zero.1 h0))
  simp only [advanceCallback, updateUIForLevel]
  refine ⟨⟨by simpa using hl, by simpa using h3⟩, by simp, ?_⟩
  simp [List.getElem?_eq_getElem hlt]

theorem invFacts_handleInputValidation (s : GameState) :
    (handleInputValidation s).undefinedWord = s.undefinedWord ∧
    (handleInputValidation s).defaultLevelName = s.defaultLevelName ∧
    (handleInputValidation s).pendingAdvances = s.pendingAdvances ∧
    (handleInputValidation s).startPresent = s.startPresent := by
  simp only [handleInputValidation, showInputError, resetInputError]
  split <;> exact ⟨rfl, rfl, rfl, rfl⟩

theorem validEvent_advanceFire {s : GameState} {r : Nat} {l : String} {rest : List String}
    (hpd : s.pendingAdvances = l :: rest) (hv : validEvent s (.advanceFire r)) :
    validRandom (wordsByLevel l).length r := by
  rw [show validEvent s (.advanceFire r)
      = (match s.pendingAdvances with
         | [] => True
         | l :: _ => validRandom (wordsByLevel l).length r) from rfl, hpd] at hv
  exact hv

theorem reachable_levelsOk {s : GameState} (h : Reachable s) : LevelsOk s := by
  induction h with
  | init => exact ⟨by decide, by decide⟩
  | next hs hv ih =>
    rename_i s' e
    cases e with
    | startClick r =>
      simp only [step]
      split
      · exact (handleStartGame_facts r s' ih).1
      · exact ih
    | levelChange l =>
      have hl : l ∈ levelProgression := hv
      simp only [step, handleLevelChange, updateUIForLevel]
      exact ⟨by simpa using hl, by simpa using ih.2⟩
    | inputEdit v =>
      have hfacts := invFacts_handleInputValidation { s' with inputValue := v }
      constructor
      · rw [show step (.inputEdit v) s' = handleInputValidation { s' with inputValue := v }
            from rfl, hfacts.2.1]
        exact ih.1
      · rw [show step (.inputEdit v) s' = handleInputValidation { s' with inputValue := v }
            from rfl]
        rw [hfacts.2.2.1]
        exact ih.2
    | enterKey r =>
      exact (handleEnterKey_facts r s' ih).1
    | tick i r =>
      exact (timerTick_facts i r s' ih).1
    | advanceFire r =>
      simp only [step]
      split
      · exact ih
      · rename_i l rest hpd
        have hl : l ∈ levelProgression := ih.2 l (by rw [hpd]; exact List.mem_cons_self l rest)
        have h3r : ∀ x ∈ ({ s' with pendingAdvances := rest } : GameState).pendingAdvances,
            x ∈ levelProgression := by
          intro x hx
          exact ih.2 x (by rw [hpd]; exact List.mem_cons_of_mem _ hx)
        exact (advanceCallback_facts l r { s' with pendingAdvances := rest } hl h3r
          (validEvent_advanceFire hpd hv)).1

/-- holds exactly when `e` is a Start click delivered while the button
is still present and the pool has been drained: the one event shape
that reaches the unguarded empty-pool draw in `handleStartGame`. -/
def startsOnEmptyPool (s : GameState) : GameEvent → Prop
  | .startClick _ => s.startPresent = true ∧ s.currentWords = []
  | _ => False

/-- invariant of play restricted to after the Start click: no
`undefined` word was ever drawn, levels are valid, and while the start
button is present the pool is the untouched full word list of the
selected level, no timer runs and no advance is queued. -/
def InvStrict (s : GameState) : Prop :=
  s.undefinedWord = false ∧ LevelsOk s ∧
  (s.startPresent = true →
    s.currentWords = wordsByLevel s.defaultLevelName ∧ s.liveTimers = [] ∧
    s.pendingAdvances = [])

theorem noPrestartPlay_inv {s : GameState} (h : ReachableNoPrestartPlay s) : InvStrict s := by
  induction h with
  | init =>
    exact ⟨by decide, ⟨by decide, by decide⟩, by decide⟩
  | next hs hv ih =>
    rename_i s' e
    obtain ⟨ih1, ihL, ih4⟩ := ih
    cases e with
    | startClick r =>
      simp only [step]
      split
      · rename_i hsp
        obtain ⟨hpool, htm, hpd⟩ := ih4 hsp
        have hne : s'.currentWords ≠ [] := by
          rw [hpool]
          exact wordsByLevel_ne_nil ihL.1
        have hfacts := handleStartGame_facts r s' ihL
        refine ⟨?_, hfacts.1, fun hx => ?_⟩
        · rw [hfacts.2.2 hne hv]
          exact ih1
        · rw [hfacts.2.1] at hx
          exact Bool.noConfusion hx
      · exact ⟨ih1, ihL, ih4⟩
    | levelChange l =>
      have hl : l ∈ levelProgression := hv
      simp only [step, handleLevelChange, updateUIForLevel]
      refine ⟨by simpa using ih1, ⟨by simpa using hl, by simpa using ihL.2⟩, fun hx => ?_⟩
      obtain ⟨hpool, htm, hpd⟩ := ih4 (by simpa using hx)
      exact ⟨by simp, by simpa using htm, by simpa using hpd⟩
    | inputEdit v =>
      have hsp : s'.startPresent = false := hv
      have hfacts := invFacts_handleInputValidation { s' with inputValue := v }
      refine ⟨?_, ⟨?_, ?_⟩, fun hx => ?_⟩
      · rw [show step (.inputEdit v) s' = handleInputValidation { s' with inputValue := v }
            from rfl, hfacts.1]
        exact ih1
      · rw [show step (.inputEdit v) s' = handleInputValidation { s' with inputValue := v }
            from rfl, hfacts.2.1]
        exact ihL.1
      · rw [show step (.inputEdit v) s' = handleInputValidation { s' with inputValue := v }
            from rfl]
        rw [hfacts.2.2.1]
        exact ihL.2
      · rw [show step (.inputEdit v) s' = handleInputValidation { s' with inputValue := v }
            from rfl, hfacts.2.2.2] at hx
        rw [hsp] at hx
        exact Bool.noConfusion hx
    | enterKey r =>
      obtain ⟨hsp, hr⟩ := hv
      have hfacts := handleEnterKey_facts r s' ihL
      refine ⟨?_, hfacts.1, fun hx => ?_⟩
      · rw [show step (.enterKey r) s' = handleEnterKey r s' from rfl, hfacts.2.2 hr]
        exact ih1
      · rw [show step (.enterKey r) s' = handleEnterKey r s' from rfl, hfacts.2.1, hsp] at hx
        exact Bool.noConfusion hx
    | tick i r =>
      have hfacts := timerTick_facts i r s' ihL
      refine ⟨?_, hfacts.1, fun hx => ?_⟩
      · rw [show step (.tick i r) s' = timerTick i r s' from rfl, hfacts.2.2 hv]
        exact ih1
      · have hsp : s'.startPresent = true := by
          rw [show step (.tick i r) s' = timerTick i r s' from rfl, hfacts.2.1] at hx
          exact hx
        obtain ⟨hpool, htm, hpd⟩ := ih4 hsp
        have hres : timerTick i r s' = s' := by
          simp [timerTick, htm]
        rw [show step (.tick i r) s' = timerTick i r s' from rfl, hres]
        exact ⟨hpool, htm, hpd⟩
    | advanceFire r =>
      simp only [step]
      split
      · exact ⟨ih1, ihL, ih4⟩
      · rename_i l rest hpd
        have hl : l ∈ levelProgression := ihL.2 l (by rw [hpd]; exact List.mem_cons_self l rest)
        have h3r : ∀ x ∈ ({ s' with pendingAdvances := rest } : GameState).pendingAdvances,
            x ∈ levelProgression := by
          intro x hx
          exact ihL.2 x (by rw [hpd]; exact List.mem_cons_of_mem _ hx)
        have hfacts := advanceCallback_facts l r { s' with pendingAdvances := rest } hl h3r
          (validEvent_advanceFire hpd hv)
        refine ⟨?_, hfacts.1, fun hx => ?_⟩
        · rw [hfacts.2.2]
          exact ih1
        · have hsp : s'.startPresent = true := by
            rw [hfacts.2.1] at hx
            exact hx
          obtain ⟨_, _, hpe⟩ := ih4 hsp
          rw [hpe] at hpd
          exact List.noConfusion hpd

/-! ## A concrete pre-start trace that drains the pool (C10) -/

/-- Boolean mirror of `validRandom`, for replaying concrete traces. -/
def validRandomB (len r : Nat) : Bool :=
  if len = 0 then r == 0 else decide (r < len)

/-- Boolean mirror of `validEvent`, for replaying concrete traces. -/
def validEventB (s : GameState) : GameEvent → Bool
  | .startClick r => validRandomB s.currentWords.length r
  | .levelChange l => levelProgression.contains l
  | .inputEdit _ => true
  | .enterKey r => validRandomB s.currentWords.length r
  | .tick _ r => validRandomB s.currentWords.length r
  | .advanceFire r =>
    match s.pendingAdvances with
    | [] => true
    | l :: _ => validRandomB (wordsByLevel l).length r

theorem validRandomB_sound {len r : Nat} (h : validRandomB len r = true) :
    validRandom len r := by
  unfold validRandomB at h
  unfold validRandom
  by_cases h0 : len = 0
  · rw [if_pos h0] at h
    rw [if_pos h0]
    exact eq_of_beq h
  · rw [if_neg h0] at h
    rw [if_neg h0]
    exact of_decide_eq_true h

theorem validEventB_sound {s : GameState} {e : GameEvent}
    (h : validEventB s e = true) : validEvent s e := by
  cases e with
  | startClick r => exact validRandomB_sound h
  | levelChange l =>
    show l ∈ levelProgression
    have hc : levelProgression.contains l = true := h
    exact List.mem_of_elem_eq_true hc
  | inputEdit v => trivial
  | enterKey r => exact validRandomB_sound h
  | tick i r => exact validRandomB_sound h
  | advanceFire r =>
    show validEvent s (.advanceFire r)
    rw [show validEvent s (.advanceFire r)
        = (match s.pendingAdvances with
           | [] => True
           | l :: _ => validRandom (wordsByLevel l).length r) from rfl]
    rw [show validEventB s (.advanceFire r)
        = (match s.pendingAdvances with
           | [] => true
           | l :: _ => validRandomB (wordsByLevel l).length r) from rfl] at h
    cases hpd : s.pendingAdvances with
    | nil => trivial
    | cons l rest =>
      rw [hpd] at h
      exact validRandomB_sound h

/-- delivers a list of events in order, from `s`. -/
def runEvents (es : List GameEvent) (s : GameState) : GameState :=
  es.foldl (fun t e => step e t) s

/-- checks, by replay, that every event of the list is valid when it is
delivered. -/
def ValidSeqB : GameState → List GameEvent → Bool
  | _, [] => true
  | s, e :: es => validEventB s e && ValidSeqB (step e s) es

theorem reachable_runEvents {s : GameState} (h : Reachable s) :
    ∀ {es : List GameEvent}, ValidSeqB s es = true → Reachable (runEvents es s) := by
  intro es
  induction es generalizing s with
  | nil => intro _; exact h
  | cons e es ih =>
    intro hv
    rw [ValidSeqB, Bool.and_eq_true] at hv
    exact ih (Reachable.next h (validEventB_sound hv.1)) hv.2

/-- the pre-start play trace: Enter on the empty initial word starts
the first round (the empty input matches the empty `theWord`), the 30
Easy words are then typed out in draw order (`randomIndex` 0 draws the
pool head each time), exhausting the pool and queueing the tier
advance; clicking the still-present Start button then draws from the
empty pool. -/
def drainEvents : List GameEvent :=
  GameEvent.enterKey 0 ::
    ((wordsByLevel "Easy").foldr
      (fun w acc => GameEvent.inputEdit w :: GameEvent.enterKey 0 :: acc)
      [GameEvent.startClick 0])

/-- the state reached by `drainEvents`: the Start click has drawn from
the empty pool, displaying the text `undefined`. -/
def badState : GameState := runEvents drainEvents initState

set_option maxRecDepth 4000 in
/-- C10 counterexample: the input listeners are attached at page load,
so the pool can be fully played out before the Start click; the click
then invokes `getRandomWord` on the empty pool and the drawn word is
`undefined` — a reachable state in which the pool access takes its
`none` branch. -/
theorem reachable_draws_undefined :
    Reachable badState ∧ badState.undefinedWord = true ∧
    badState.theWord = "undefined" ∧ badState.startPresent = false := by
  refine ⟨reachable_runEvents Reachable.init (by decide), by decide, by decide, by decide⟩

/-- C10 (amended): every in-game draw is safe — a valid submission,
tick or tier-advance event never changes the `undefined`-word flag,
because those draws sit behind the pool-non-empty guard or follow a
pool refill; the only event shape that can draw from an empty pool is a
Start click delivered after pre-start play has drained the pool.  And
under the discipline the spec assumes — no keystroke or submission
before the Start click — the pool is still full at the click, so no
reachable state ever has an undefined word. -/
theorem guarded_draws_never_undefined :
    (∀ (s : GameState) (e : GameEvent), Reachable s → validEvent s e →
      ¬ startsOnEmptyPool s e → (step e s).undefinedWord = s.undefinedWord) ∧
    (∀ s : GameState, ReachableNoPrestartPlay s →
      s.undefinedWord = false ∧ (s.startPresent = true → s.currentWords ≠ [])) := by
  constructor
  · intro s e hreach hv hguard
    have hL := reachable_levelsOk hreach
    cases e with
    | startClick r =>
      simp only [step]
      split
      · rename_i hsp
        have hne : s.currentWords ≠ [] := fun hnil => hguard ⟨hsp, hnil⟩
        exact (handleStartGame_facts r s hL).2.2 hne hv
      · rfl
    | levelChange l =>
      simp only [step, handleLevelChange, updateUIForLevel]
    | inputEdit v =>
      exact (invFacts_handleInputValidation { s with inputValue := v }).1
    | enterKey r =>
      exact (handleEnterKey_facts r s hL).2.2 hv
    | tick i r =>
      exact (timerTick_facts i r s hL).2.2 hv
    | advanceFire r =>
      simp only [step]
      split
      · rfl
      · rename_i l rest hpd
        have hl : l ∈ levelProgression := hL.2 l (by rw [hpd]; exact List.mem_cons_self l rest)
        have h3r : ∀ x ∈ ({ s with pendingAdvances := rest } : GameState).pendingAdvances,
            x ∈ levelProgression :=
          fun x hx => hL.2 x (by rw [hpd]; exact List.mem_cons_of_mem _ hx)
        exact (advanceCallback_facts l r { s with pendingAdvances := rest } hl h3r
          (validEvent_advanceFire hpd hv)).2.2
  · intro s h
    have hInv := noPrestartPlay_inv h
    refine ⟨hInv.1, fun hx => ?_⟩
    obtain ⟨hpool, _, _⟩ := hInv.2.2 hx
    rw [hpool]
    exact wordsByLevel_ne_nil hInv.2.1.1

theorem guarded_draws_never_undefined_witness :
    (step (.enterKey 0) initState).undefinedWord = initState.undefinedWord ∧
    (step (.startClick 0) initState).undefinedWord = false := by
  have h := guarded_draws_never_undefined
  have hval : validRandom initState.currentWords.length 0 := by
    unfold validRandom
    rw [if_neg (show ¬ (initState.currentWords.length = 0) by decide)]
    decide
  constructor
  · exact h.1 initState (.enterKey 0) Reachable.init hval (fun hf => hf)
  · exact (h.2 (step (.startClick 0) initState)
      (ReachableNoPrestartPlay.next ReachableNoPrestartPlay.init hval)).1

end TypingGame
